import Mathlib

/-!
Verification of the two scripts in this repository against their
specification: `extract_training_data.py` (a regex based extractor turning a
markdown memory document into instruction/context/response training records)
and `evaluate_model.py` (a keyword containment evaluator comparing a
fine-tuned model against a base model).

Modelling conventions.  Python strings are `List Char`; Python regular
expression searches used by the scripts are embedded as executable scanners
with the exact leftmost, lazy-group and lookahead semantics of the concrete
patterns appearing in the source; Python real arithmetic on scores is
embedded as exact rational arithmetic (`ℚ`); a Python operation that can
raise (division by zero on an empty list) is embedded as an `Option`.
All definitions are executable.
-/

set_option maxRecDepth 8000

namespace CursorRules

/-- Whitespace set of Python `str.strip` (the ASCII whitespace characters). -/
def isSpaceChar (c : Char) : Bool :=
  c = ' ' || c = '\t' || c = '\n' || c = '\r' || c = '\x0b' || c = '\x0c'

/-- Python `str.strip`: remove leading and trailing whitespace. -/
def strip (s : List Char) : List Char :=
  ((s.dropWhile isSpaceChar).reverse.dropWhile isSpaceChar).reverse

/-- Index of the first occurrence of `pat` as a contiguous substring of the
scanned list; `none` if it never occurs.  This is the position at which
`re.search` on an escaped literal pattern anchors, and `some`-ness is Python
`in` containment. -/
def findSub (pat : List Char) : List Char → Option Nat
  | [] => if pat.isEmpty then some 0 else none
  | c :: t => if pat.isPrefixOf (c :: t) then some 0 else (findSub pat t).map (· + 1)

/-- Python substring containment `pat in s`. -/
def containsSub (pat s : List Char) : Bool := (findSub pat s).isSome

/-- Characters of the scanned list strictly before the first position whose
suffix satisfies `term`.  This is the value of a lazy group `(.*?)` (in
`re.DOTALL` mode) that is followed by a lookahead; `term` decides whether the
lookahead succeeds at a given suffix. -/
def descUntil (term : List Char → Bool) : List Char → List Char
  | [] => []
  | c :: t => if term (c :: t) then [] else c :: descUntil term t

/-- Lookahead `(?=\n## |$)` of `_extract_section`.  Without `re.MULTILINE`,
Python `$` succeeds at the very end of the input and also just before a
final newline, hence the `s == ['\n']` disjunct. -/
def secTermCode (s : List Char) : Bool :=
  ['\n', '#', '#', ' '].isPrefixOf s || s.isEmpty || s == ['\n']

/-- The `_extract_section` method of `MemoryInsightsExtractor`
(extract_training_data.py, lines 192-199): search for the literal `header`,
lazily capture everything up to the next `\n## ` top-level heading marker or
`$`, and return the captured group stripped of surrounding whitespace;
return the empty string when the header does not occur. -/
def extract_section (header content : List Char) : List Char :=
  match findSub header content with
  | none => []
  | some i => strip (descUntil secTermCode (content.drop (i + header.length)))

/-- Section lookup exactly as claim C1 words it: the substring of the
document starting just after the heading and extending up to (but not
including) the next top-level `## ` heading or the end of the document, with
no whitespace trimming; empty string when the heading is absent.  This
definition follows the claim text, to be compared against
`extract_section`, which follows the source. -/
def secTermClaim (s : List Char) : Bool :=
  ['\n', '#', '#', ' '].isPrefixOf s || s.isEmpty

/-- Companion definition to `secTermClaim`; see its documentation. -/
def extract_section_claimed (header content : List Char) : List Char :=
  match findSub header content with
  | none => []
  | some i => descUntil secTermClaim (content.drop (i + header.length))

theorem descUntil_code_claim (r : List Char) :
    descUntil secTermCode r = descUntil secTermClaim r ∨
      descUntil secTermClaim r = descUntil secTermCode r ++ ['\n'] := by
  induction r with
  | nil => exact Or.inl rfl
  | cons c t ih =>
    by_cases hclaim : secTermClaim (c :: t) = true
    · have hcode : secTermCode (c :: t) = true := by
        simp only [secTermClaim, Bool.or_eq_true] at hclaim
        simp only [secTermCode, Bool.or_eq_true]
        tauto
      left
      simp [descUntil, hclaim, hcode]
    · by_cases hcode : secTermCode (c :: t) = true
      · have hnl : c :: t = ['\n'] := by
          simp only [secTermCode, Bool.or_eq_true, beq_iff_eq, List.isEmpty_iff] at hcode
          simp only [secTermClaim, Bool.or_eq_true, List.isEmpty_iff] at hclaim
          rcases hcode with (h | h) | h
          · exact absurd (Or.inl h) hclaim
          · exact absurd (Or.inr h) hclaim
          · exact h
        right
        rw [hnl]
        have h1 : descUntil secTermCode ['\n'] = [] := by decide
        have h2 : descUntil secTermClaim ['\n'] = ['\n'] := by decide
        rw [h1, h2]
        rfl
      · have e1 : descUntil secTermCode (c :: t) = c :: descUntil secTermCode t := by
          simp [descUntil, hcode]
        have e2 : descUntil secTermClaim (c :: t) = c :: descUntil secTermClaim t := by
          simp [descUntil, hclaim]
        rw [e1, e2]
        rcases ih with h | h
        · exact Or.inl (by rw [h])
        · exact Or.inr (by rw [h, List.cons_append])

theorem strip_append_newline (x : List Char) : strip (x ++ ['\n']) = strip x := by
  unfold strip
  rw [List.dropWhile_append]
  cases hx : List.dropWhile isSpaceChar x with
  | nil => decide
  | cons c t =>
    simp only [List.isEmpty_cons, if_false, Bool.false_eq_true]
    simp [List.reverse_append, List.dropWhile_cons, isSpaceChar]

/-- C1, corrected form: the section-lookup operation returns the
claim-described substring with leading and trailing whitespace stripped
(Python `.strip()`), and it returns the empty string whenever the heading
does not occur in the document. -/
theorem extract_section_correct (header content : List Char) :
    extract_section header content = strip (extract_section_claimed header content) ∧
    (findSub header content = none → extract_section header content = []) := by
  constructor
  · cases h : findSub header content with
    | none =>
      unfold extract_section extract_section_claimed
      rw [h]
      rfl
    | some i =>
      unfold extract_section extract_section_claimed
      rw [h]
      show strip (descUntil secTermCode (content.drop (i + header.length))) =
        strip (descUntil secTermClaim (content.drop (i + header.length)))
      rcases descUntil_code_claim (content.drop (i + header.length)) with he | he
      · rw [he]
      · rw [he, strip_append_newline]
  · intro h
    unfold extract_section
    rw [h]

/-- Witness for `extract_section_correct`: on a document without the heading
the lookup returns the empty string. -/
theorem extract_section_correct_witness :
    extract_section "## Missing".toList "no headings in this document".toList = [] :=
  (extract_section_correct "## Missing".toList "no headings in this document".toList).2
    (by decide)

/-- C1 counterexample: on the document `## A\nx \n## B` with heading `## A`
the code returns `x` (trimmed), while the claim-described value is the raw
substring `\nx `; the two differ, so the claim as stated is false. -/
theorem extract_section_counterexample :
    extract_section "## A".toList "## A\nx \n## B".toList ≠
      extract_section_claimed "## A".toList "## A\nx \n## B".toList := by
  decide

/-! Generic scanner implementing `re.findall` semantics for the concrete
patterns of the extractor: try a match at every position from left to right;
on success emit the captured groups and resume after the consumed text
(advancing at least one character), on failure advance one character. -/

/-- Fuel-indexed scan; fuel is at least the length of the scanned list. -/
def scanAllAux (f : List Char → Option (α × Nat)) : Nat → List Char → List α
  | _, [] => []
  | 0, _ :: _ => []
  | n + 1, c :: t =>
    match f (c :: t) with
    | some (a, m) => a :: scanAllAux f n ((c :: t).drop (max m 1))
    | none => scanAllAux f n t

/-- Left-to-right scan of the whole list; `f` attempts a match at one
position and reports the captured value plus consumed length. -/
def scanAll (f : List Char → Option (α × Nat)) (s : List Char) : List α :=
  scanAllAux f s.length s

theorem scanAllAux_congr (f : List Char → Option (α × Nat)) :
    ∀ (n m : Nat) (s : List Char), s.length ≤ n → s.length ≤ m →
      scanAllAux f n s = scanAllAux f m s := by
  intro n
  induction n with
  | zero =>
    intro m s hn _
    cases s with
    | nil => cases m <;> rfl
    | cons c t => simp at hn
  | succ n ih =>
    intro m s hn hm
    cases s with
    | nil => cases m <;> rfl
    | cons c t =>
      cases m with
      | zero => simp at hm
      | succ m' =>
        simp only [scanAllAux]
        cases hf : f (c :: t) with
        | some am =>
          obtain ⟨a, k⟩ := am
          dsimp only
          have hlen : ((c :: t).drop (max k 1)).length ≤ n := by
            simp only [List.length_drop, List.length_cons]
            simp only [List.length_cons] at hn
            omega
          have hlen' : ((c :: t).drop (max k 1)).length ≤ m' := by
            simp only [List.length_drop, List.length_cons]
            simp only [List.length_cons] at hm
            omega
          rw [ih _ _ hlen hlen']
        | none =>
          have hlen : t.length ≤ n := by
            simp only [List.length_cons] at hn; omega
          have hlen' : t.length ≤ m' := by
            simp only [List.length_cons] at hm; omega
          exact ih _ _ hlen hlen'

theorem scanAll_cons (f : List Char → Option (α × Nat)) (c : Char) (t : List Char) :
    scanAll f (c :: t) =
      match f (c :: t) with
      | some (a, m) => a :: scanAll f ((c :: t).drop (max m 1))
      | none => scanAll f t := by
  show scanAllAux f (c :: t).length (c :: t) = _
  simp only [List.length_cons, scanAllAux]
  cases hf : f (c :: t) with
  | some am =>
    obtain ⟨a, k⟩ := am
    dsimp only
    have : scanAllAux f t.length ((c :: t).drop (max k 1)) =
        scanAllAux f ((c :: t).drop (max k 1)).length ((c :: t).drop (max k 1)) := by
      apply scanAllAux_congr
      · simp only [List.length_drop, List.length_cons]; omega
      · exact Nat.le_refl _
    rw [this]
    rfl
  | none => rfl

theorem scanAll_eats (f : List Char → Option (α × Nat)) (s : List Char)
    (a : α) (m : Nat) (hs : s ≠ []) (hf : f s = some (a, m)) :
    scanAll f s = a :: scanAll f (s.drop (max m 1)) := by
  cases s with
  | nil => exact absurd rfl hs
  | cons c t => rw [scanAll_cons, hf]

/-! The bullet-pair pattern `- \*\*(.*?)\*\*: (.*?)(?=\n-|\n\n|$)` compiled
with `re.DOTALL`, used by `_extract_architecture_patterns` and the other
bullet-based extraction routines.  A match at a position requires the
literal `- **`; the lazy first group then ends at the first following
occurrence of the literal `**: `, and the lazy second group ends at the
first position where `\n-`, `\n\n` or `$` succeeds (with the Python `$`
convention of also matching just before a final newline). -/

/-- Literal `- **` opening a bullet. -/
def patBulletStart : List Char := ['-', ' ', '*', '*']

/-- Literal `**: ` separating the bullet name from its description. -/
def patNameEnd : List Char := ['*', '*', ':', ' ']

/-- Lookahead `(?=\n-|\n\n|$)` terminating a bullet description. -/
def bulletTerm (s : List Char) : Bool :=
  ['\n', '-'].isPrefixOf s || ['\n', '\n'].isPrefixOf s || s.isEmpty || s == ['\n']

/-- One attempted match of the bullet-pair pattern at the head of `s`,
returning the two captured groups and the consumed length. -/
def bulletMatchAt (s : List Char) : Option ((List Char × List Char) × Nat) :=
  if patBulletStart.isPrefixOf s then
    let rest := s.drop 4
    match findSub patNameEnd rest with
    | none => none
    | some j =>
      let name := rest.take j
      let desc := descUntil bulletTerm (rest.drop (j + 4))
      some ((name, desc), 4 + j + 4 + desc.length)
  else none

/-- Python `re.findall` of the bullet-pair pattern over a section body. -/
def bulletFindall (s : List Char) : List (List Char × List Char) :=
  scanAll bulletMatchAt s

/-- One well-formed source line `- **name**: description`. -/
def bulletLine (p : List Char × List Char) : List Char :=
  patBulletStart ++ p.1 ++ patNameEnd ++ p.2

/-- Section body consisting of well-formed bullets.  Each entry carries the
bullet pair and the number of extra newlines in the separator that follows
it: `0` extra newlines is a single newline, i.e. the bullet is terminated
by the next bullet; one or more extra newlines put a blank line between the
bullets, i.e. the bullet is terminated by a blank line.  The last bullet is
terminated by the end of input (its separator count is unused). -/
def bulletSectionSep : List ((List Char × List Char) × Nat) → List Char
  | [] => []
  | [pk] => bulletLine pk.1
  | pk :: q :: ps =>
    bulletLine pk.1 ++ (List.replicate (pk.2 + 1) '\n' ++ bulletSectionSep (q :: ps))

/-- Well-formedness of a bullet pair as in claim C2: name and description
are non-empty after trimming; the name does not contain the literal
delimiter `**: ` (so the lazy first group captures exactly the name - it
may contain `*`); and the description contains neither of the terminators
`\n-` and `\n\n` and does not end in a newline (so the lazy second group
captures exactly the description - it may span several lines). -/
def wfBullet (p : List Char × List Char) : Prop :=
  strip p.1 ≠ [] ∧ strip p.2 ≠ [] ∧
  containsSub patNameEnd p.1 = false ∧
  containsSub ['\n', '-'] p.2 = false ∧
  containsSub ['\n', '\n'] p.2 = false ∧
  p.2.getLast? ≠ some '\n'

instance wfBullet.decidable (p : List Char × List Char) : Decidable (wfBullet p) := by
  unfold wfBullet
  infer_instance

theorem containsSub_cons (pat : List Char) (c : Char) (t : List Char)
    (h : containsSub pat t = true) : containsSub pat (c :: t) = true := by
  unfold containsSub at h ⊢
  simp only [findSub]
  split
  · rfl
  · cases hfs : findSub pat t with
    | none => rw [hfs] at h; simp at h
    | some v => rfl

theorem containsSub_of_prefix_drop (pat : List Char) :
    ∀ (s : List Char) (i : Nat), pat.isPrefixOf (s.drop i) = true →
      containsSub pat s = true := by
  intro s
  induction s with
  | nil =>
    intro i h
    rw [List.drop_nil] at h
    unfold containsSub
    cases pat with
    | nil => rfl
    | cons a t => simp at h
  | cons c t ih =>
    intro i h
    cases i with
    | zero =>
      rw [List.drop_zero] at h
      unfold containsSub
      simp [findSub, h]
    | succ j =>
      rw [List.drop_succ_cons] at h
      exact containsSub_cons pat c t (ih j h)

theorem prefix_append_of_length_le {l1 l2 l3 : List Char} (h : l1 <+: l2 ++ l3)
    (hl : l1.length ≤ l2.length) : l1 <+: l2 := by
  have h1 : l1 = (l2 ++ l3).take l1.length := List.prefix_iff_eq_take.mp h
  rw [List.take_append_of_le_length hl] at h1
  rw [h1]
  exact List.take_prefix _ _

/-- No occurrence of the delimiter `**: ` starts strictly inside the name
part of `name ++ "**: " ++ tail` when the name itself does not contain the
delimiter: an occurrence fully inside the name is excluded by hypothesis,
and an occurrence overlapping the boundary is impossible because no proper
suffix of `**: ` is one of its prefixes. -/
theorem no_early_nameEnd (n tail : List Char) (hn : containsSub patNameEnd n = false) :
    ∀ i, i < n.length →
      ¬ (patNameEnd.isPrefixOf ((n ++ (patNameEnd ++ tail)).drop i) = true) := by
  intro i hi hpre
  rw [List.drop_append_of_le_length (Nat.le_of_lt hi)] at hpre
  have hmpos : 0 < (n.drop i).length := by
    rw [List.length_drop]
    omega
  have hpre' : patNameEnd <+: (n.drop i) ++ (patNameEnd ++ tail) :=
    List.isPrefixOf_iff_prefix.mp hpre
  by_cases h4 : 4 ≤ (n.drop i).length
  · have hpm : patNameEnd <+: n.drop i :=
      prefix_append_of_length_le hpre' (by simpa [patNameEnd] using h4)
    have hocc : containsSub patNameEnd n = true :=
      containsSub_of_prefix_drop patNameEnd n i (List.isPrefixOf_iff_prefix.mpr hpm)
    rw [hocc] at hn
    exact absurd hn (by simp)
  · push_neg at h4
    have hm_pref : (n.drop i) <+: patNameEnd :=
      List.prefix_of_prefix_length_le (List.prefix_append _ _) hpre'
        (by simpa [patNameEnd] using Nat.le_of_lt h4)
    obtain ⟨u, hu⟩ := hm_pref
    have hu_pref : u <+: patNameEnd ++ tail := by
      obtain ⟨r, hr⟩ := hpre'
      refine ⟨r, ?_⟩
      have hcal : (n.drop i) ++ (u ++ r) = (n.drop i) ++ (patNameEnd ++ tail) := by
        rw [← List.append_assoc, hu, hr]
      exact List.append_cancel_left hcal
    have hulen : u.length ≤ 4 := by
      have hlen4 : (n.drop i).length + u.length = 4 := by
        have := congrArg List.length hu
        simpa [List.length_append, patNameEnd] using this
      omega
    have hu_pat : u <+: patNameEnd :=
      prefix_append_of_length_le hu_pref (by simpa [patNameEnd] using hulen)
    have hu_eq : u = patNameEnd.drop (n.drop i).length := by
      calc u = ((n.drop i) ++ u).drop (n.drop i).length := by rw [List.drop_left]
      _ = patNameEnd.drop (n.drop i).length := by rw [hu]
    set k := (n.drop i).length with hk
    interval_cases k
    · rw [hu_eq] at hu_pat
      exact absurd hu_pat (by decide)
    · rw [hu_eq] at hu_pat
      exact absurd hu_pat (by decide)
    · rw [hu_eq] at hu_pat
      exact absurd hu_pat (by decide)

/-- `findSub` returns the position of an occurrence before which no other
occurrence starts. -/
theorem findSub_first (pat : List Char) :
    ∀ (s : List Char) (j : Nat), pat.isPrefixOf (s.drop j) = true →
      (∀ i, i < j → ¬ (pat.isPrefixOf (s.drop i) = true)) →
      findSub pat s = some j := by
  intro s
  induction s with
  | nil =>
    intro j hj hmin
    rw [List.drop_nil] at hj
    have hj0 : j = 0 := by
      by_contra hne
      exact hmin 0 (by omega) (by rw [List.drop_nil]; exact hj)
    subst hj0
    cases pat with
    | nil => rfl
    | cons a t => simp at hj
  | cons c t ih =>
    intro j hj hmin
    simp only [findSub]
    by_cases hp : pat.isPrefixOf (c :: t) = true
    · have hj0 : j = 0 := by
        by_contra hne
        exact hmin 0 (by omega) (by rw [List.drop_zero]; exact hp)
      subst hj0
      rw [if_pos hp]
    · rw [if_neg hp]
      cases j with
      | zero =>
        rw [List.drop_zero] at hj
        exact absurd hj hp
      | succ j1 =>
        rw [List.drop_succ_cons] at hj
        have hmin1 : ∀ i, i < j1 → ¬ (pat.isPrefixOf (t.drop i) = true) := by
          intro i hilt
          have := hmin (i + 1) (by omega)
          rwa [List.drop_succ_cons] at this
        rw [ih j1 hj hmin1]
        rfl

theorem findSub_nameEnd (n tail : List Char)
    (h : containsSub patNameEnd n = false) :
    findSub patNameEnd (n ++ (patNameEnd ++ tail)) = some n.length := by
  apply findSub_first
  · rw [List.drop_left, List.isPrefixOf_iff_prefix]
    exact List.prefix_append _ _
  · exact no_early_nameEnd n tail h

theorem bulletTerm_cons_false (c : Char) (t : List Char) (h : c ≠ '\n') :
    bulletTerm (c :: t) = false := by
  have h1 : (['\n', '-'] : List Char).isPrefixOf (c :: t) = false := by
    rw [show (['\n', '-'] : List Char) = '\n' :: ['-'] from rfl, List.isPrefixOf_cons₂]
    rw [show (('\n' : Char) == c) = false from beq_eq_false_iff_ne.mpr (Ne.symm h)]
    rfl
  have h2 : (['\n', '\n'] : List Char).isPrefixOf (c :: t) = false := by
    rw [show (['\n', '\n'] : List Char) = '\n' :: ['\n'] from rfl, List.isPrefixOf_cons₂]
    rw [show (('\n' : Char) == c) = false from beq_eq_false_iff_ne.mpr (Ne.symm h)]
    rfl
  have h3 : ((c :: t) == ['\n']) = false := by
    rw [beq_eq_false_iff_ne]
    intro hct
    injection hct with h1 _
    exact h h1
  simp [bulletTerm, h1, h2, h3]

theorem bulletTerm_newline_cons_false (e : Char) (t : List Char)
    (h1 : e ≠ '-') (h2 : e ≠ '\n') : bulletTerm ('\n' :: e :: t) = false := by
  have ha : (['\n', '-'] : List Char).isPrefixOf ('\n' :: e :: t) = false := by
    rw [show (['\n', '-'] : List Char) = '\n' :: ['-'] from rfl, List.isPrefixOf_cons₂]
    rw [show ((['-'] : List Char).isPrefixOf (e :: t)) = false from by
      rw [show (['-'] : List Char) = '-' :: [] from rfl, List.isPrefixOf_cons₂]
      rw [show (('-' : Char) == e) = false from beq_eq_false_iff_ne.mpr (Ne.symm h1)]
      rfl]
    simp
  have hb : (['\n', '\n'] : List Char).isPrefixOf ('\n' :: e :: t) = false := by
    rw [show (['\n', '\n'] : List Char) = '\n' :: ['\n'] from rfl, List.isPrefixOf_cons₂]
    rw [show ((['\n'] : List Char).isPrefixOf (e :: t)) = false from by
      rw [show (['\n'] : List Char) = '\n' :: [] from rfl, List.isPrefixOf_cons₂]
      rw [show (('\n' : Char) == e) = false from beq_eq_false_iff_ne.mpr (Ne.symm h2)]
      rfl]
    simp
  have hc : (('\n' :: e :: t) == ['\n']) = false := by
    rw [beq_eq_false_iff_ne]
    intro hct
    injection hct with _ h5
    exact absurd h5 (by simp)
  simp [bulletTerm, ha, hb, hc]

theorem descUntil_bullet (tail : List Char)
    (ht : tail = [] ∨ (∃ r, tail = '\n' :: '-' :: r) ∨ (∃ r, tail = '\n' :: '\n' :: r)) :
    ∀ d : List Char, containsSub ['\n', '-'] d = false →
      containsSub ['\n', '\n'] d = false → d.getLast? ≠ some '\n' →
      descUntil bulletTerm (d ++ tail) = d := by
  intro d
  induction d with
  | nil =>
    intro _ _ _
    rcases ht with h | ⟨r, h⟩ | ⟨r, h⟩
    · subst h; rfl
    · subst h
      have hterm : bulletTerm ('\n' :: '-' :: r) = true := by
        have hpref : (['\n', '-'] : List Char).isPrefixOf ('\n' :: '-' :: r) = true := by
          rw [List.isPrefixOf_iff_prefix]
          exact ⟨r, rfl⟩
        simp [bulletTerm, hpref]
      show descUntil bulletTerm ('\n' :: '-' :: r) = []
      simp [descUntil, hterm]
    · subst h
      have hterm : bulletTerm ('\n' :: '\n' :: r) = true := by
        have hpref : (['\n', '\n'] : List Char).isPrefixOf ('\n' :: '\n' :: r) = true := by
          rw [List.isPrefixOf_iff_prefix]
          exact ⟨r, rfl⟩
        simp [bulletTerm, hpref]
      show descUntil bulletTerm ('\n' :: '\n' :: r) = []
      simp [descUntil, hterm]
  | cons c d1 ih =>
    intro h1 h2 h3
    have h1d : containsSub ['\n', '-'] d1 = false := by
      cases hx : containsSub ['\n', '-'] d1 with
      | false => rfl
      | true =>
        rw [containsSub_cons _ c _ hx] at h1
        exact absurd h1 (by simp)
    have h2d : containsSub ['\n', '\n'] d1 = false := by
      cases hx : containsSub ['\n', '\n'] d1 with
      | false => rfl
      | true =>
        rw [containsSub_cons _ c _ hx] at h2
        exact absurd h2 (by simp)
    have h3d : d1.getLast? ≠ some '\n' := by
      cases d1 with
      | nil => simp
      | cons e d2 =>
        rw [← List.getLast?_cons_cons (a := c)]
        exact h3
    have hterm : bulletTerm (c :: (d1 ++ tail)) = false := by
      by_cases hc : c = '\n'
      · subst hc
        cases d1 with
        | nil =>
          exfalso
          exact h3 (by simp)
        | cons e d2 =>
          have he1 : e ≠ '-' := by
            intro hee
            subst hee
            have hocc : containsSub ['\n', '-'] ('\n' :: '-' :: d2) = true := by
              unfold containsSub
              simp only [findSub]
              rw [if_pos (by rw [List.isPrefixOf_iff_prefix]; exact ⟨d2, rfl⟩)]
              rfl
            rw [hocc] at h1
            exact absurd h1 (by simp)
          have he2 : e ≠ '\n' := by
            intro hee
            subst hee
            have hocc : containsSub ['\n', '\n'] ('\n' :: '\n' :: d2) = true := by
              unfold containsSub
              simp only [findSub]
              rw [if_pos (by rw [List.isPrefixOf_iff_prefix]; exact ⟨d2, rfl⟩)]
              rfl
            rw [hocc] at h2
            exact absurd h2 (by simp)
          show bulletTerm ('\n' :: ((e :: d2) ++ tail)) = false
          rw [List.cons_append]
          exact bulletTerm_newline_cons_false e _ he1 he2
      · exact bulletTerm_cons_false c _ hc
    show descUntil bulletTerm (c :: (d1 ++ tail)) = c :: d1
    simp only [descUntil, hterm, Bool.false_eq_true, if_false]
    rw [ih h1d h2d h3d]

theorem bulletMatchAt_line (p : List Char × List Char) (tail : List Char)
    (hp : wfBullet p)
    (ht : tail = [] ∨ (∃ r, tail = '\n' :: '-' :: r) ∨ (∃ r, tail = '\n' :: '\n' :: r)) :
    bulletMatchAt (bulletLine p ++ tail) = some (p, (bulletLine p).length) := by
  obtain ⟨n, d⟩ := p
  obtain ⟨-, -, hname, hd1, hd2, hd3⟩ := hp
  have hshape : bulletLine (n, d) ++ tail =
      patBulletStart ++ (n ++ (patNameEnd ++ (d ++ tail))) := by
    simp [bulletLine, List.append_assoc]
  rw [hshape]
  unfold bulletMatchAt
  have h1 : patBulletStart.isPrefixOf
      (patBulletStart ++ (n ++ (patNameEnd ++ (d ++ tail)))) = true := by
    rw [List.isPrefixOf_iff_prefix]
    exact List.prefix_append _ _
  rw [h1]
  simp only [if_true]
  have hdrop4 : (patBulletStart ++ (n ++ (patNameEnd ++ (d ++ tail)))).drop 4 =
      n ++ (patNameEnd ++ (d ++ tail)) :=
    List.drop_left' (by rfl)
  rw [hdrop4, findSub_nameEnd n _ hname]
  have htake : (n ++ (patNameEnd ++ (d ++ tail))).take n.length = n :=
    List.take_left _ _
  have hdroprest : (n ++ (patNameEnd ++ (d ++ tail))).drop (n.length + 4) = d ++ tail := by
    rw [← List.append_assoc]
    exact List.drop_left' (by simp [patNameEnd])
  simp only [htake, hdroprest, descUntil_bullet tail ht d hd1 hd2 hd3]
  have hlen : 4 + n.length + 4 + d.length = (bulletLine (n, d)).length := by
    simp [bulletLine, patBulletStart, patNameEnd, List.length_append]
    omega
  rw [hlen]

theorem bulletMatchAt_newline (s : List Char) : bulletMatchAt ('\n' :: s) = none := by
  unfold bulletMatchAt
  have hpf : patBulletStart.isPrefixOf ('\n' :: s) = false := by
    rw [show patBulletStart = '-' :: [' ', '*', '*'] from rfl, List.isPrefixOf_cons₂]
    rw [show (('-' : Char) == '\n') = false from by decide]
    rfl
  rw [hpf]
  rfl

theorem scanAll_skip_newlines (k : Nat) (s : List Char) :
    scanAll bulletMatchAt (List.replicate k '\n' ++ s) = scanAll bulletMatchAt s := by
  induction k with
  | zero => simp
  | succ k1 ih =>
    rw [List.replicate_succ, List.cons_append, scanAll_cons, bulletMatchAt_newline]
    exact ih

theorem bulletSectionSep_shape (q : (List Char × List Char) × Nat)
    (ps : List ((List Char × List Char) × Nat)) :
    ∃ z, bulletSectionSep (q :: ps) = bulletLine q.1 ++ z := by
  cases ps with
  | nil => exact ⟨[], by simp [bulletSectionSep]⟩
  | cons q1 ps1 =>
    exact ⟨List.replicate (q.2 + 1) '\n' ++ bulletSectionSep (q1 :: ps1), rfl⟩

theorem bulletLine_ne_nil (p : List Char × List Char) : bulletLine p ≠ [] := by
  simp [bulletLine, patBulletStart]

theorem bulletFindall_wf :
    ∀ (ps : List ((List Char × List Char) × Nat)), (∀ p ∈ ps, wfBullet p.1) →
      bulletFindall (bulletSectionSep ps) = ps.map (fun p => p.1) := by
  intro ps
  induction ps using bulletSectionSep.induct with
  | case1 => intro _; rfl
  | case2 pk =>
    intro hwf
    have hm : bulletMatchAt (bulletLine pk.1) = some (pk.1, (bulletLine pk.1).length) := by
      have := bulletMatchAt_line pk.1 [] (hwf pk (List.mem_singleton_self pk)) (Or.inl rfl)
      rwa [List.append_nil] at this
    unfold bulletFindall bulletSectionSep
    rw [scanAll_eats _ _ _ _ (bulletLine_ne_nil pk.1) hm]
    have hmax : max (bulletLine pk.1).length 1 = (bulletLine pk.1).length := by
      have hpos : 1 ≤ (bulletLine pk.1).length := by
        cases hb : bulletLine pk.1 with
        | nil => exact absurd hb (bulletLine_ne_nil pk.1)
        | cons c t => simp
      omega
    rw [hmax, List.drop_length]
    rfl
  | case3 pk q ps ih =>
    intro hwf
    obtain ⟨z, hz⟩ := bulletSectionSep_shape q ps
    have hqline : ∃ r, bulletSectionSep (q :: ps) = '-' :: r := by
      rw [hz]
      exact ⟨' ' :: '*' :: '*' :: ((q.1.1 ++ (patNameEnd ++ q.1.2)) ++ z),
        by simp [bulletLine, patBulletStart]⟩
    obtain ⟨r, hr⟩ := hqline
    have hts : List.replicate (pk.2 + 1) '\n' ++ bulletSectionSep (q :: ps) = [] ∨
        (∃ r1, List.replicate (pk.2 + 1) '\n' ++ bulletSectionSep (q :: ps) =
          '\n' :: '-' :: r1) ∨
        (∃ r1, List.replicate (pk.2 + 1) '\n' ++ bulletSectionSep (q :: ps) =
          '\n' :: '\n' :: r1) := by
      cases hk : pk.2 with
      | zero =>
        right; left
        refine ⟨r, ?_⟩
        rw [List.replicate_succ, List.replicate_zero, List.cons_append, List.nil_append, hr]
      | succ k1 =>
        right; right
        refine ⟨List.replicate k1 '\n' ++ bulletSectionSep (q :: ps), ?_⟩
        rw [List.replicate_succ, List.replicate_succ, List.cons_append, List.cons_append]
    have hm : bulletMatchAt (bulletLine pk.1 ++
        (List.replicate (pk.2 + 1) '\n' ++ bulletSectionSep (q :: ps))) =
        some (pk.1, (bulletLine pk.1).length) :=
      bulletMatchAt_line pk.1 _ (hwf pk (List.mem_cons_self _ _)) hts
    unfold bulletFindall bulletSectionSep
    have hne : bulletLine pk.1 ++
        (List.replicate (pk.2 + 1) '\n' ++ bulletSectionSep (q :: ps)) ≠ [] := by
      simp [bulletLine, patBulletStart]
    rw [scanAll_eats _ _ _ _ hne hm]
    have hmax : max (bulletLine pk.1).length 1 = (bulletLine pk.1).length := by
      have hpos : 1 ≤ (bulletLine pk.1).length := by
        cases hb : bulletLine pk.1 with
        | nil => exact absurd hb (bulletLine_ne_nil pk.1)
        | cons c t => simp
      omega
    rw [hmax, List.drop_left, scanAll_skip_newlines]
    have hih : bulletFindall (bulletSectionSep (q :: ps)) = (q :: ps).map (fun p => p.1) :=
      ih (fun p1 hp1 => hwf p1 (List.mem_cons_of_mem _ hp1))
    unfold bulletFindall at hih
    rw [hih]
    rfl

/-! Remaining patterns of extract_training_data.py. -/

/-- Lookahead `(?=\n### |$)` terminating a subsection body. -/
def subsecTerm (s : List Char) : Bool :=
  ['\n', '#', '#', '#', ' '].isPrefixOf s || s.isEmpty || s == ['\n']

/-- One attempted match of the subsection pattern `### (.*?)\n(.*?)(?=\n### |$)`
(re.DOTALL): literal `### `, lazy title up to the first newline, lazy body up
to the next `\n### ` or `$`. -/
def subsecMatchAt (s : List Char) : Option ((List Char × List Char) × Nat) :=
  if (['#', '#', '#', ' '] : List Char).isPrefixOf s then
    let rest := s.drop 4
    match findSub ['\n'] rest with
    | none => none
    | some j =>
      let name := rest.take j
      let body := descUntil subsecTerm (rest.drop (j + 1))
      some ((name, body), 4 + j + 1 + body.length)
  else none

/-- Python `re.findall` of the subsection pattern. -/
def subsecFindall (s : List Char) : List (List Char × List Char) :=
  scanAll subsecMatchAt s

/-- Literal opening fence with language tag (three backticks, `bash`, newline). -/
def patCodeStart : List Char := ['\x60', '\x60', '\x60', 'b', 'a', 's', 'h', '\n']

/-- Literal closing fence (newline then three backticks). -/
def patCodeEnd : List Char := ['\n', '\x60', '\x60', '\x60']

/-- One attempted match of the fenced-code pattern (lazy group between the
opening `bash` fence and the first closing fence; re.DOTALL). -/
def codeMatchAt (s : List Char) : Option (List Char × Nat) :=
  if patCodeStart.isPrefixOf s then
    match findSub patCodeEnd (s.drop 8) with
    | none => none
    | some j => some ((s.drop 8).take j, 8 + j + 4)
  else none

/-- Python `re.findall` of the fenced-code pattern. -/
def codeFindall (s : List Char) : List (List Char) :=
  scanAll codeMatchAt s

/-- Character class `[A-Z_]` of the environment-variable pattern. -/
def isEnvNameChar (c : Char) : Bool := ('A' ≤ c && c ≤ 'Z') || c = '_'

/-- One attempted match of `([A-Z_]+)=([^\n]+)` (no DOTALL): a maximal
non-empty run of upper-case/underscore characters, a literal `=`, and a
non-empty remainder of the line. -/
def envMatchAt (s : List Char) : Option ((List Char × List Char) × Nat) :=
  match s with
  | [] => none
  | c :: _ =>
    if isEnvNameChar c then
      let name := s.takeWhile isEnvNameChar
      match s.drop name.length with
      | '=' :: r =>
        let value := r.takeWhile (fun ch => !(ch = '\n'))
        if value.isEmpty then none
        else some ((name, value), name.length + 1 + value.length)
      | _ => none
    else none

/-- Python `re.findall` of the environment-variable pattern. -/
def envFindall (s : List Char) : List (List Char × List Char) :=
  scanAll envMatchAt s

/-! The training-example data model and the six extraction routines of
`MemoryInsightsExtractor.extract_all_examples`, each translated from
extract_training_data.py. -/

/-- One training record: the three string fields written to the output
file, in the key order used by the script. -/
structure TrainingExample where
  instruction : List Char
  context : List Char
  response : List Char
deriving DecidableEq

/-- Python `str.lower` (ASCII case folding as used by the templates). -/
def lowerStr (s : List Char) : List Char := s.map Char.toLower

/-- Python `'\n'.join`. -/
def joinNL : List (List Char) → List Char
  | [] => []
  | [x] => x
  | x :: y :: r => x ++ '\n' :: joinNL (y :: r)

/-- Heading literals searched by the six routines. -/
def hdrArchitecture : List Char := "## Architecture Patterns Discovered".toList

/-- Subsection heading for the resolver-priority sub-extraction. -/
def hdrResolver : List Char := "### GraphQL Resolver Priority".toList

/-- Subsection heading for the UI-rendering sub-extraction. -/
def hdrUi : List Char := "### UI Conditional Rendering Patterns".toList

/-- Heading for `_extract_environment_gotchas`. -/
def hdrGotchas : List Char := "## Environment Gotchas".toList

/-- Heading for `_extract_critical_commands`. -/
def hdrCommands : List Char := "## Critical Commands".toList

/-- Heading for `_extract_lessons_learned`. -/
def hdrLessons : List Char := "## Key Lessons Learned".toList

/-- Heading for `_extract_authentication_info`. -/
def hdrAuth : List Char := "## Authentication Information".toList

/-- Subsection heading for working credentials. -/
def hdrCreds : List Char := "### Working Credentials".toList

/-- Subsection heading for access requirements. -/
def hdrAccess : List Char := "### Access Requirements".toList

/-- Heading for `_extract_environment_config`. -/
def hdrConfig : List Char := "## Environment Configuration".toList

/-- Record template for one field-implementation bullet pair
(extract_training_data.py lines 53-58). -/
def archFieldExample (p : List Char × List Char) : TrainingExample :=
  { instruction := "What is the ".toList ++ p.1 ++ " and how should I implement it?".toList
  , context :=
      "I\x27m working on a GraphQL/Prisma/React application with PostgreSQL database".toList
  , response := "The ".toList ++ p.1 ++ ": ".toList ++ strip p.2 }

/-- Record template for one resolver-priority bullet pair (lines 64-69). -/
def archResolverExample (p : List Char × List Char) : TrainingExample :=
  { instruction := "How do GraphQL resolvers work in this codebase?".toList
  , context :=
      "I\x27m implementing GraphQL resolvers and need to understand the priority system".toList
  , response := p.1 ++ ": ".toList ++ strip p.2 }

/-- Record template for one UI-rendering bullet pair (lines 75-80). -/
def archUiExample (p : List Char × List Char) : TrainingExample :=
  { instruction := "How should I handle ".toList ++ lowerStr p.1 ++ " in the UI?".toList
  , context :=
      "I\x27m implementing UI components and need to understand rendering patterns".toList
  , response := "For ".toList ++ p.1 ++ ": ".toList ++ strip p.2 }

/-- The `_extract_architecture_patterns` routine (lines 40-80): returns the
records it appends to `self.examples`; returns early with no records when
its section is missing. -/
def extract_architecture_patterns (content : List Char) : List TrainingExample :=
  let patterns_section := extract_section hdrArchitecture content
  if patterns_section = [] then []
  else
    let ex1 := (bulletFindall patterns_section).map archFieldExample
    let resolver_section := extract_section hdrResolver patterns_section
    let ex2 := if resolver_section = [] then []
      else (bulletFindall resolver_section).map archResolverExample
    let ui_section := extract_section hdrUi patterns_section
    let ex3 := if ui_section = [] then []
      else (bulletFindall ui_section).map archUiExample
    ex1 ++ ex2 ++ ex3

/-- Record template for one environment-gotcha bullet pair (lines 95-100). -/
def gotchaExample (secName : List Char) (p : List Char × List Char) : TrainingExample :=
  { instruction :=
      "I\x27m having issues with ".toList ++ lowerStr p.1 ++ ". What should I do?".toList
  , context :=
      "I\x27m working on ".toList ++ lowerStr secName ++ " in my development environment".toList
  , response := "For ".toList ++ p.1 ++ ": ".toList ++ strip p.2 }

/-- The `_extract_environment_gotchas` routine (lines 82-100). -/
def extract_environment_gotchas (content : List Char) : List TrainingExample :=
  let s := extract_section hdrGotchas content
  if s = [] then []
  else (subsecFindall s).flatMap fun sc =>
    (bulletFindall sc.2).map (gotchaExample sc.1)

/-- Record template for one command subsection (lines 115-121). -/
def commandExample (secName : List Char) (blocks : List (List Char)) : TrainingExample :=
  { instruction := "How do I ".toList ++ lowerStr secName ++ "?".toList
  , context := "I need to execute commands for development environment management".toList
  , response := "For ".toList ++ secName ++ ":\n\x60\x60\x60bash\n".toList
      ++ strip (joinNL blocks) ++ "\n\x60\x60\x60".toList }

/-- The `_extract_critical_commands` routine (lines 102-121). -/
def extract_critical_commands (content : List Char) : List TrainingExample :=
  let s := extract_section hdrCommands content
  if s = [] then []
  else (subsecFindall s).flatMap fun sc =>
    let blocks := codeFindall sc.2
    if blocks = [] then [] else [commandExample sc.1 blocks]

/-- Record template for one lessons-learned bullet pair (lines 136-141). -/
def lessonExample (secName : List Char) (p : List Char × List Char) : TrainingExample :=
  { instruction := "What should I know about ".toList ++ lowerStr p.1 ++ "?".toList
  , context := "I\x27m following ".toList ++ lowerStr secName ++ " methodology".toList
  , response := p.1 ++ ": ".toList ++ strip p.2 }

/-- The `_extract_lessons_learned` routine (lines 123-141). -/
def extract_lessons_learned (content : List Char) : List TrainingExample :=
  let s := extract_section hdrLessons content
  if s = [] then []
  else (subsecFindall s).flatMap fun sc =>
    (bulletFindall sc.2).map (lessonExample sc.1)

/-- Record template for one working-credential bullet pair (lines 153-158). -/
def credExample (p : List Char × List Char) : TrainingExample :=
  { instruction := "What are the working authentication credentials?".toList
  , context := "I need to access the application for testing".toList
  , response := p.1 ++ ": ".toList ++ strip p.2 }

/-- Record template for one access-requirement bullet pair (lines 164-169). -/
def accessExample (p : List Char × List Char) : TrainingExample :=
  { instruction := "What are the access requirements for this application?".toList
  , context := "I\x27m setting up access to the application".toList
  , response := p.1 ++ ": ".toList ++ strip p.2 }

/-- The `_extract_authentication_info` routine (lines 143-169). -/
def extract_authentication_info (content : List Char) : List TrainingExample :=
  let s := extract_section hdrAuth content
  if s = [] then []
  else
    let creds := extract_section hdrCreds s
    let e1 := if creds = [] then [] else (bulletFindall creds).map credExample
    let acc := extract_section hdrAccess s
    let e2 := if acc = [] then [] else (bulletFindall acc).map accessExample
    e1 ++ e2

/-- Record template for one configuration subsection (lines 184-190). -/
def configExample (secName : List Char) (envs : List (List Char × List Char)) :
    TrainingExample :=
  { instruction := "How do I configure ".toList ++ lowerStr secName ++ "?".toList
  , context := "I\x27m setting up environment variables for development".toList
  , response := "For ".toList ++ secName ++ ", set these environment variables:\n".toList
      ++ joinNL (envs.map fun ev => ev.1 ++ '=' :: ev.2) }

/-- The `_extract_environment_config` routine (lines 171-190). -/
def extract_environment_config (content : List Char) : List TrainingExample :=
  let s := extract_section hdrConfig content
  if s = [] then []
  else (subsecFindall s).flatMap fun sc =>
    let envs := envFindall sc.2
    if envs = [] then [] else [configExample sc.1 envs]

/-- The `extract_all_examples` method (lines 26-38): the six routines run in
a fixed order and the collected records are their concatenation. -/
def extract_all_examples (content : List Char) : List TrainingExample :=
  extract_architecture_patterns content ++ extract_environment_gotchas content
    ++ extract_critical_commands content ++ extract_lessons_learned content
    ++ extract_authentication_info content ++ extract_environment_config content

/-- Exit code of the extractor `main` (lines 213-244): 1 when the memory
file is missing, 1 when zero examples were extracted (after printing a
user-facing message), 0 otherwise. -/
def extractor_main (memory_file_exists : Bool) (content : List Char) : Nat :=
  if memory_file_exists = false then 1
  else if extract_all_examples content = [] then 1
  else 0

/-- C2, amended: a bullet matching the pattern contributes an example even
when its name or description is empty after trimming, so no bullet is
"skipped"; for a section body of N well-formed bullet pairs, each
terminated by the next bullet, a blank line, or the end of input (names may
contain `*`, descriptions may span several lines), the routine yields
exactly the N pairs in document order, hence exactly N examples, each with
a non-empty name and a non-empty whitespace-trimmed description. -/
theorem bullet_extraction_wf (ps : List ((List Char × List Char) × Nat))
    (h : ∀ p ∈ ps, wfBullet p.1) :
    bulletFindall (bulletSectionSep ps) = ps.map (fun p => p.1) ∧
    ((bulletFindall (bulletSectionSep ps)).map archFieldExample).length = ps.length ∧
    ∀ p ∈ bulletFindall (bulletSectionSep ps), strip p.1 ≠ [] ∧ strip p.2 ≠ [] := by
  have he := bulletFindall_wf ps h
  refine ⟨he, ?_, ?_⟩
  · rw [he, List.length_map, List.length_map]
  · rw [he]
    intro p hp
    obtain ⟨x, hx, rfl⟩ := List.mem_map.mp hp
    obtain ⟨h1, h2, -⟩ := h x hx
    exact ⟨h1, h2⟩

/-- Witness for `bullet_extraction_wf`: two bullets, the first with a `*`
inside its name and a two-line description and terminated by a blank line,
the second terminated by the end of input, yield exactly the two pairs. -/
theorem bullet_extraction_wf_witness :
    bulletFindall (bulletSectionSep
      [(("Name *One*".toList, "first\nline two".toList), 1),
       (("Name Two".toList, "second description".toList), 0)]) =
      [("Name *One*".toList, "first\nline two".toList),
       ("Name Two".toList, "second description".toList)] :=
  (bullet_extraction_wf _ (by decide)).1

/-- C2 counterexample: the bullet `- ****: desc` has an empty name, yet the
pattern matches it and the routine builds an example from it, contradicting
the claim that such bullets are skipped and contribute no example. -/
theorem bullet_empty_name_counterexample :
    bulletFindall "- ****: desc".toList = [(([] : List Char), "desc".toList)] ∧
    ((bulletFindall "- ****: desc".toList).map archFieldExample).length = 1 := by
  decide

/-- C5: each routine whose top-level section is missing contributes zero
examples (and, being a total function, raises no error); the overall
extraction is empty exactly when all six routines contribute nothing; and
an empty extraction makes `main` exit with status 1. -/
theorem extraction_graceful (content : List Char) :
    (extract_section hdrArchitecture content = [] →
      extract_architecture_patterns content = []) ∧
    (extract_section hdrGotchas content = [] →
      extract_environment_gotchas content = []) ∧
    (extract_section hdrCommands content = [] →
      extract_critical_commands content = []) ∧
    (extract_section hdrLessons content = [] →
      extract_lessons_learned content = []) ∧
    (extract_section hdrAuth content = [] →
      extract_authentication_info content = []) ∧
    (extract_section hdrConfig content = [] →
      extract_environment_config content = []) ∧
    (extract_all_examples content = [] ↔
      (extract_architecture_patterns content = [] ∧
       extract_environment_gotchas content = [] ∧
       extract_critical_commands content = [] ∧
       extract_lessons_learned content = [] ∧
       extract_authentication_info content = [] ∧
       extract_environment_config content = [])) ∧
    (extract_all_examples content = [] → extractor_main true content = 1) := by
  refine ⟨?_, ?_, ?_, ?_, ?_, ?_, ?_, ?_⟩
  · intro h; simp [extract_architecture_patterns, h]
  · intro h; simp [extract_environment_gotchas, h]
  · intro h; simp [extract_critical_commands, h]
  · intro h; simp [extract_lessons_learned, h]
  · intro h; simp [extract_authentication_info, h]
  · intro h; simp [extract_environment_config, h]
  · simp [extract_all_examples, List.append_eq_nil, and_assoc]
  · intro h; simp [extractor_main, h]

/-- Witness for `extraction_graceful`: on a document with no headings every
routine contributes nothing and `main` exits with status 1. -/
theorem extraction_graceful_witness :
    extract_architecture_patterns "just plain text".toList = [] ∧
    extractor_main true "just plain text".toList = 1 :=
  ⟨(extraction_graceful "just plain text".toList).1 (by decide),
   (extraction_graceful "just plain text".toList).2.2.2.2.2.2.2 (by decide)⟩

/-! Model of evaluate_model.py.  The generation call (`generate_response`,
delegated to the external transformers/torch interface) is the capability
boundary of the spec and is modelled as an opaque function parameter `gen`
mapping a model variant and a test case to the produced response text.
Scores, computed with Python real division, are modelled exactly in `ℚ`;
the average over an empty list, which raises `ZeroDivisionError` in Python,
is modelled as `Option.none`. -/

/-- The two model variants compared by the evaluator. -/
inductive ModelType where
  | fine_tuned
  | base_model
deriving DecidableEq

/-- One benchmark test case (fields of the dicts in
`create_evaluation_tests`). -/
structure TestCase where
  category : List Char
  question : List Char
  expected_keywords : List (List Char)
  context : List Char
  difficulty : List Char
deriving DecidableEq

/-- One per-test-case evaluation record (the dict built by
`evaluate_test_case`, lines 190-201). -/
structure EvalResult where
  category : List Char
  question : List Char
  response : List Char
  expected_keywords : List (List Char)
  matched_keywords : List (List Char)
  matchesCount : Nat
  total_keywords : Nat
  score : ℚ
  difficulty : List Char
  model_type : ModelType
deriving DecidableEq

/-- The `evaluate_keywords` method (lines 162-174): lower-case the response
once, keep the expected keywords whose lower-cased form occurs in it, and
score `matches / len(expected_keywords)` guarded to 0 for an empty keyword
list.  Returns `(matches, score, matched_keywords)` like the source. -/
def evaluate_keywords (response : List Char) (expected : List (List Char)) :
    Nat × ℚ × List (List Char) :=
  let response_lower := lowerStr response
  let matched := expected.filter fun k => containsSub (lowerStr k) response_lower
  let matchesCount := matched.length
  let score : ℚ := if expected.isEmpty then 0
    else (matchesCount : ℚ) / (expected.length : ℚ)
  (matchesCount, score, matched)

/-- The `evaluate_test_case` method (lines 176-201) with the generation
call abstracted by `gen`. -/
def evaluate_test_case (gen : ModelType → TestCase → List Char)
    (tc : TestCase) (mt : ModelType) : EvalResult :=
  let response := gen mt tc
  let r := evaluate_keywords response tc.expected_keywords
  { category := tc.category
  , question := tc.question
  , response := response
  , expected_keywords := tc.expected_keywords
  , matched_keywords := r.2.2
  , matchesCount := r.1
  , total_keywords := tc.expected_keywords.length
  , score := r.2.1
  , difficulty := tc.difficulty
  , model_type := mt }

/-- Per-model summary block of `_calculate_summary` (lines 243-249). -/
structure ModelSummary where
  average_score : ℚ
  total_matches : Nat
  perfect_scores : Nat
  zero_scores : Nat
  category_scores : List (List Char × ℚ)
deriving DecidableEq

/-- Improvement block of `_calculate_summary` (lines 255-259). -/
structure Improvement where
  score_improvement : ℚ
  percentage_improvement : ℚ
  better_performance : Bool
deriving DecidableEq

/-- Full summary object. -/
structure Summary where
  fine_tuned : ModelSummary
  base_model : ModelSummary
  improvement : Improvement
deriving DecidableEq

/-- The `_calculate_category_scores` method (lines 263-277): group scores by
category in first-seen order and average each group (each group is
non-empty by construction, so the division is total here). -/
def calculate_category_scores (results : List EvalResult) : List (List Char × ℚ) :=
  let cats := results.foldl
    (fun acc r => if acc.contains r.category then acc else acc ++ [r.category]) []
  cats.map fun c =>
    let scores := (results.filter (fun r => r.category = c)).map (fun r => r.score)
    (c, scores.sum / (scores.length : ℚ))

/-- Per-model half of `_calculate_summary` (lines 239-249).  The Python
`sum(scores) / len(scores)` raises `ZeroDivisionError` on an empty result
list; that failure is modelled as `none`. -/
def calculate_model_summary (results : List EvalResult) : Option ModelSummary :=
  let scores := results.map fun r => r.score
  if scores.length = 0 then none
  else some
    { average_score := scores.sum / (scores.length : ℚ)
    , total_matches := (results.map fun r => r.matchesCount).sum
    , perfect_scores := (scores.filter fun s => s = 1).length
    , zero_scores := (scores.filter fun s => s = 0).length
    , category_scores := calculate_category_scores results }

/-- Improvement block of `_calculate_summary` (lines 251-259): delta of the
averages, percentage relative to the base average guarded to 0 unless the
base average is positive, and the strict-comparison flag. -/
def calculate_improvement (ft_avg bm_avg : ℚ) : Improvement :=
  { score_improvement := ft_avg - bm_avg
  , percentage_improvement := if bm_avg > 0 then (ft_avg - bm_avg) / bm_avg * 100 else 0
  , better_performance := decide (ft_avg > bm_avg) }

/-- The `_calculate_summary` method (lines 230-261). -/
def calculate_summary (ft bm : List EvalResult) : Option Summary :=
  match calculate_model_summary ft, calculate_model_summary bm with
  | some f, some b => some ⟨f, b, calculate_improvement f.average_score b.average_score⟩
  | _, _ => none

/-- Result object of `run_evaluation` (lines 203-228). -/
structure EvalResults where
  fine_tuned : List EvalResult
  base_model : List EvalResult
  summary : Option Summary
deriving DecidableEq

/-- The `run_evaluation` method (lines 203-228): one full pass over the
test cases against the fine-tuned model, then one full pass against the
base model, then the summary. -/
def run_evaluation (gen : ModelType → TestCase → List Char)
    (test_cases : List TestCase) : EvalResults :=
  let ft := test_cases.map fun tc => evaluate_test_case gen tc ModelType.fine_tuned
  let bm := test_cases.map fun tc => evaluate_test_case gen tc ModelType.base_model
  ⟨ft, bm, calculate_summary ft bm⟩

/-- Observable outcome of the evaluator `main` (lines 325-358). -/
structure EvaluatorOutcome where
  exit_code : Nat
  error_message : Option (List Char)
  generation_calls : Nat
deriving DecidableEq

/-- The evaluator `main` (lines 325-358): when the fine-tuned model
directory does not exist it prints an error naming the path and returns 1
before any generation; otherwise it runs the evaluation (two generation
calls per test case) and returns 0, or 1 when the run raises (in this model
the only modelled exception is the empty-test-list `ZeroDivisionError`,
caught by the top-level `except`). -/
def evaluator_main (fine_tuned_exists : Bool) (fine_tuned_path : List Char)
    (gen : ModelType → TestCase → List Char) (test_cases : List TestCase) :
    EvaluatorOutcome :=
  if fine_tuned_exists = false then
    { exit_code := 1
    , error_message := some ("Error: Fine-tuned model directory \x27".toList
        ++ fine_tuned_path ++ "\x27 not found".toList)
    , generation_calls := 0 }
  else
    { exit_code := if (run_evaluation gen test_cases).summary.isSome then 0 else 1
    , error_message := none
    , generation_calls := 2 * test_cases.length }

/-- The evaluator `main` including the `--no-comparison` command-line flag,
which `argparse` accepts (lines 331-332) but which the body never reads. -/
def evaluator_main_args (_no_comparison : Bool) (fine_tuned_exists : Bool)
    (fine_tuned_path : List Char) (gen : ModelType → TestCase → List Char)
    (test_cases : List TestCase) : EvaluatorOutcome :=
  evaluator_main fine_tuned_exists fine_tuned_path gen test_cases

/-- C3: the keyword scorer keeps exactly the keywords contained
case-insensitively in the response, counts them, and scores
`matches / total`, with score 0 (and no division error - the function is
total) for an empty keyword list. -/
theorem evaluate_keywords_spec (response : List Char) (expected : List (List Char)) :
    (evaluate_keywords response expected).2.2 =
      expected.filter (fun k => containsSub (lowerStr k) (lowerStr response)) ∧
    (evaluate_keywords response expected).1 =
      (evaluate_keywords response expected).2.2.length ∧
    (expected ≠ [] → (evaluate_keywords response expected).2.1 =
      ((evaluate_keywords response expected).1 : ℚ) / (expected.length : ℚ)) ∧
    (expected = [] → (evaluate_keywords response expected).2.1 = 0) := by
  refine ⟨?_, ?_, ?_, ?_⟩
  · rfl
  · rfl
  · intro h
    have : expected.isEmpty = false := by
      cases expected with
      | nil => exact absurd rfl h
      | cons a t => rfl
    simp [evaluate_keywords, this]
  · intro h
    subst h
    rfl

/-- Witness for `evaluate_keywords_spec`: with three expected keywords the
score is the match count over three. -/
theorem evaluate_keywords_spec_witness :
    (evaluate_keywords "Use NPM Install and node".toList
      ["npm install".toList, "node".toList, "yarn".toList]).2.1 =
    ((evaluate_keywords "Use NPM Install and node".toList
      ["npm install".toList, "node".toList, "yarn".toList]).1 : ℚ) / (3 : ℚ) :=
  (evaluate_keywords_spec "Use NPM Install and node".toList
    ["npm install".toList, "node".toList, "yarn".toList]).2.2.1 (by decide)

/-- C9: the score always lies in [0,1], the match count is the length of
the matched list, and the matched list is a sublist (order- and
casing-preserving subsequence) of the expected list. -/
theorem evaluate_keywords_invariants (response : List Char)
    (expected : List (List Char)) :
    0 ≤ (evaluate_keywords response expected).2.1 ∧
    (evaluate_keywords response expected).2.1 ≤ 1 ∧
    (evaluate_keywords response expected).1 =
      (evaluate_keywords response expected).2.2.length ∧
    (evaluate_keywords response expected).2.2.Sublist expected := by
  refine ⟨?_, ?_, rfl, ?_⟩
  · unfold evaluate_keywords
    dsimp only
    split
    · exact le_refl 0
    · positivity
  · unfold evaluate_keywords
    dsimp only
    split
    · exact zero_le_one
    · rename_i hne
      rw [div_le_one (by
        have : expected ≠ [] := by
          cases expected with
          | nil => simp at hne
          | cons a t => exact List.cons_ne_nil a t
        have : 0 < expected.length := List.length_pos.mpr this
        exact_mod_cast this)]
      exact_mod_cast List.length_filter_le _ _
  · exact List.filter_sublist _

/-- Mean of the score fields of a result list, exactly the
`sum(scores) / len(scores)` expression of `_calculate_summary` (total as a
`ℚ` expression; its use inside `calculate_model_summary` is guarded by the
emptiness check that models the Python `ZeroDivisionError`). -/
def meanScore (l : List EvalResult) : ℚ :=
  ((l.map fun r => r.score).sum) / (((l.map fun r => r.score).length : ℚ))

theorem calculate_model_summary_avg (l : List EvalResult) (hl : l ≠ []) :
    ∃ ms, calculate_model_summary l = some ms ∧ ms.average_score = meanScore l := by
  unfold calculate_model_summary
  dsimp only
  rw [if_neg (by simp [hl])]
  exact ⟨_, rfl, rfl⟩

/-- C4: the summary reports score improvement = fine-tuned mean minus base
mean, percentage improvement = the delta over the base mean times 100 with
a 0 guard at base mean 0, and the strict-comparison flag; in particular
base mean 1/5 (0.20) and fine-tuned mean 3/5 (0.60) give improvement 2/5
(0.40), percentage 200 and `better_performance = true`. -/
theorem improvement_spec (f b : List EvalResult) (hf : f ≠ []) (hb : b ≠ [])
    (hnn : 0 ≤ meanScore b) :
    (∃ s, calculate_summary f b = some s ∧
      s.improvement.score_improvement = meanScore f - meanScore b ∧
      (meanScore b = 0 → s.improvement.percentage_improvement = 0) ∧
      (meanScore b ≠ 0 → s.improvement.percentage_improvement =
        (meanScore f - meanScore b) / meanScore b * 100) ∧
      (s.improvement.better_performance = true ↔ meanScore b < meanScore f)) ∧
    calculate_improvement (3 / 5 : ℚ) (1 / 5 : ℚ) =
      { score_improvement := 2 / 5
      , percentage_improvement := 200
      , better_performance := true } := by
  constructor
  · obtain ⟨F, hF, hFa⟩ := calculate_model_summary_avg f hf
    obtain ⟨B, hB, hBa⟩ := calculate_model_summary_avg b hb
    have hs : calculate_summary f b =
        some ⟨F, B, calculate_improvement F.average_score B.average_score⟩ := by
      unfold calculate_summary
      rw [hF, hB]
    rw [hFa, hBa] at hs
    refine ⟨_, hs, rfl, ?_, ?_, ?_⟩
    · intro h0
      simp only [calculate_improvement]
      rw [h0]
      norm_num
    · intro hne
      have hpos : 0 < meanScore b := lt_of_le_of_ne hnn (Ne.symm hne)
      simp only [calculate_improvement]
      rw [if_pos hpos]
    · simp only [calculate_improvement]
      exact decide_eq_true_iff
  · unfold calculate_improvement
    norm_num

/-- Concrete single fine-tuned result with score 3/5, for the
`improvement_spec` witness. -/
def ftResult0 : EvalResult :=
  ⟨[], [], [], [], [], 3, 5, 3 / 5, [], ModelType.fine_tuned⟩

/-- Concrete single base-model result with score 1/5, for the
`improvement_spec` witness. -/
def bmResult0 : EvalResult :=
  ⟨[], [], [], [], [], 1, 5, 1 / 5, [], ModelType.base_model⟩

/-- Witness for `improvement_spec`: single-result lists with scores 3/5 and
1/5 satisfy the hypotheses, and the summary exists with the claimed
improvement fields. -/
theorem improvement_spec_witness :
    ∃ s, calculate_summary [ftResult0] [bmResult0] = some s ∧
      s.improvement.score_improvement = meanScore [ftResult0] - meanScore [bmResult0] ∧
      (meanScore [bmResult0] = 0 → s.improvement.percentage_improvement = 0) ∧
      (meanScore [bmResult0] ≠ 0 → s.improvement.percentage_improvement =
        (meanScore [ftResult0] - meanScore [bmResult0]) / meanScore [bmResult0] * 100) ∧
      (s.improvement.better_performance = true ↔
        meanScore [bmResult0] < meanScore [ftResult0]) :=
  (improvement_spec [ftResult0] [bmResult0] (by simp) (by simp)
    (by norm_num [meanScore, bmResult0])).1

/-- C10: the average-score division is well-defined for every run over a
non-empty test-case list (the `none` branch modelling `ZeroDivisionError`
is unreachable), while a run over the empty list hits it. -/
theorem summary_defined (gen : ModelType → TestCase → List Char)
    (tcs : List TestCase) :
    (tcs ≠ [] → ((run_evaluation gen tcs).summary).isSome = true) ∧
    (tcs = [] → (run_evaluation gen tcs).summary = none) := by
  constructor
  · intro h
    unfold run_evaluation
    dsimp only
    unfold calculate_summary
    obtain ⟨F, hF, -⟩ := calculate_model_summary_avg
      (tcs.map fun tc => evaluate_test_case gen tc ModelType.fine_tuned) (by simp [h])
    obtain ⟨B, hB, -⟩ := calculate_model_summary_avg
      (tcs.map fun tc => evaluate_test_case gen tc ModelType.base_model) (by simp [h])
    rw [hF, hB]
    rfl
  · intro h
    subst h
    rfl

/-- Witness for `summary_defined`: a singleton test list yields a defined
summary. -/
theorem summary_defined_witness :
    ((run_evaluation (fun _ _ => [])
      [{ category := "Cat".toList, question := "Q".toList, expected_keywords := []
       , context := "ctx".toList, difficulty := "easy".toList }]).summary).isSome = true :=
  (summary_defined (fun _ _ => [])
    [{ category := "Cat".toList, question := "Q".toList, expected_keywords := []
     , context := "ctx".toList, difficulty := "easy".toList }]).1 (by simp)

/-- C6: the evaluation always makes one full pass over the test list per
model variant, producing two result lists of the test list's length whose
i-th entries evaluate the i-th test case (fine-tuned pass and base pass
respectively), and the outcome of `main` does not depend on the declared
but never consulted `--no-comparison` flag. -/
theorem run_evaluation_two_passes (gen : ModelType → TestCase → List Char)
    (tcs : List TestCase) (flag1 flag2 fe : Bool) (path : List Char) :
    (run_evaluation gen tcs).fine_tuned.length = tcs.length ∧
    (run_evaluation gen tcs).base_model.length = tcs.length ∧
    (∀ i : Nat, (run_evaluation gen tcs).fine_tuned[i]? =
      (tcs[i]?).map fun tc => evaluate_test_case gen tc ModelType.fine_tuned) ∧
    (∀ i : Nat, (run_evaluation gen tcs).base_model[i]? =
      (tcs[i]?).map fun tc => evaluate_test_case gen tc ModelType.base_model) ∧
    evaluator_main_args flag1 fe path gen tcs = evaluator_main_args flag2 fe path gen tcs := by
  refine ⟨by simp [run_evaluation], by simp [run_evaluation], ?_, ?_, rfl⟩
  · intro i
    simp [run_evaluation, List.getElem?_map]
  · intro i
    simp [run_evaluation, List.getElem?_map]

theorem containsSub_append_middle (p a bsuffix : List Char) :
    containsSub p (a ++ (p ++ bsuffix)) = true := by
  induction a with
  | nil =>
    rw [List.nil_append]
    unfold containsSub
    cases p with
    | nil => cases bsuffix <;> simp [findSub]
    | cons c t =>
      have hp : (c :: t).isPrefixOf ((c :: t) ++ bsuffix) = true := by
        rw [List.isPrefixOf_iff_prefix]
        exact List.prefix_append _ _
      show (findSub (c :: t) (c :: (t ++ bsuffix))).isSome = true
      simp only [findSub]
      rw [show (c :: t).isPrefixOf (c :: (t ++ bsuffix)) = true from hp]
      rfl
  | cons x a' ih =>
    show containsSub p (x :: (a' ++ (p ++ bsuffix))) = true
    unfold containsSub at ih ⊢
    simp only [findSub]
    split
    · rfl
    · cases hfs : findSub p (a' ++ (p ++ bsuffix)) with
      | none => rw [hfs] at ih; exact absurd ih (by simp)
      | some v => rfl

/-- C7: when the fine-tuned model directory does not exist the evaluator
exits with status 1, performs no generation call, and prints an error
message that names the missing path. -/
theorem evaluator_missing_path (path : List Char)
    (gen : ModelType → TestCase → List Char) (tcs : List TestCase) :
    (evaluator_main false path gen tcs).exit_code = 1 ∧
    (evaluator_main false path gen tcs).generation_calls = 0 ∧
    ∃ msg, (evaluator_main false path gen tcs).error_message = some msg ∧
      containsSub path msg = true := by
  refine ⟨rfl, rfl, ⟨_, rfl, ?_⟩⟩
  show containsSub path ("Error: Fine-tuned model directory \x27".toList
    ++ path ++ "\x27 not found".toList) = true
  rw [List.append_assoc]
  exact containsSub_append_middle path _ _

/-! JSON-lines serialization (`save_training_data` with the default `jsonl`
format, extract_training_data.py lines 201-206).  `json.dumps` with
`ensure_ascii=False` escapes the double quote, the backslash and the control
characters (named escapes for backspace, tab, newline, formfeed and carriage
return, `\u00xx` for the rest), keeps every other character raw, and emits
the three keys in insertion order with the default separators; each record
is written on one line.  The reader models `json.loads` applied line by
line, restricted to the exact object grammar the serializer emits. -/

/-- Lower-case hex digit, as Python `'\u%04x' % i` produces. -/
def hexDigitChar (n : Nat) : Char :=
  if n < 10 then Char.ofNat (48 + n) else Char.ofNat (87 + n)

/-- Numeric value of a hex digit character. -/
def hexVal (c : Char) : Option Nat :=
  if '0' ≤ c ∧ c ≤ '9' then some (c.toNat - 48)
  else if 'a' ≤ c ∧ c ≤ 'f' then some (c.toNat - 87)
  else if 'A' ≤ c ∧ c ≤ 'F' then some (c.toNat - 55)
  else none

/-- JSON escape of one character inside a string literal, following the
escape table of Python `json.encoder` with `ensure_ascii=False`. -/
def escapeChar (c : Char) : List Char :=
  if c = '\x22' then ['\\', '\x22']
  else if c = '\\' then ['\\', '\\']
  else if c = '\n' then ['\\', 'n']
  else if c = '\r' then ['\\', 'r']
  else if c = '\t' then ['\\', 't']
  else if c = '\x08' then ['\\', 'b']
  else if c = '\x0c' then ['\\', 'f']
  else if c.toNat < 32 then
    ['\\', 'u', '0', '0', hexDigitChar (c.toNat / 16), hexDigitChar (c.toNat % 16)]
  else [c]

/-- JSON escape of a whole string body. -/
def escapeStr (s : List Char) : List Char := (s.map escapeChar).flatten

/-- Parser for the body of a JSON string after its opening quote: returns
the decoded text and the input following the closing quote. -/
def parseStringBody : List Char → Option (List Char × List Char)
  | [] => none
  | c :: rest =>
    if c = '\x22' then some ([], rest)
    else if c = '\\' then
      match rest with
      | [] => none
      | e :: r =>
        if e = '\x22' then (parseStringBody r).map fun p => ('\x22' :: p.1, p.2)
        else if e = '\\' then (parseStringBody r).map fun p => ('\\' :: p.1, p.2)
        else if e = 'n' then (parseStringBody r).map fun p => ('\n' :: p.1, p.2)
        else if e = 'r' then (parseStringBody r).map fun p => ('\r' :: p.1, p.2)
        else if e = 't' then (parseStringBody r).map fun p => ('\t' :: p.1, p.2)
        else if e = 'b' then (parseStringBody r).map fun p => ('\x08' :: p.1, p.2)
        else if e = 'f' then (parseStringBody r).map fun p => ('\x0c' :: p.1, p.2)
        else if e = 'u' then
          match r with
          | d1 :: d2 :: d3 :: d4 :: r2 =>
            (hexVal d1).bind fun x1 =>
            (hexVal d2).bind fun x2 =>
            (hexVal d3).bind fun x3 =>
            (hexVal d4).bind fun x4 =>
            (parseStringBody r2).map fun p =>
              (Char.ofNat (((x1 * 16 + x2) * 16 + x3) * 16 + x4) :: p.1, p.2)
          | _ => none
        else none
    else (parseStringBody rest).map fun p => (c :: p.1, p.2)

/-- Python `json.dumps` of one training record: the three keys in
insertion order, default `, ` and `: ` separators. -/
def dumpsExample (e : TrainingExample) : List Char :=
  "\x7b\x22instruction\x22: \x22".toList ++ escapeStr e.instruction
    ++ "\x22, \x22context\x22: \x22".toList ++ escapeStr e.context
    ++ "\x22, \x22response\x22: \x22".toList ++ escapeStr e.response
    ++ "\x22\x7d".toList

/-- File content written by `save_training_data` in `jsonl` format: each
record serialized on its own newline-terminated line. -/
def save_jsonl (es : List TrainingExample) : List Char :=
  (es.map fun e => dumpsExample e ++ ['\n']).flatten

/-- Consume an expected literal prefix. -/
def expectLit (pat s : List Char) : Option (List Char) :=
  if pat.isPrefixOf s then some (s.drop pat.length) else none

/-- Parse one serialized record together with its trailing newline. -/
def parseExampleFrom (s : List Char) : Option (TrainingExample × List Char) := do
  let s1 ← expectLit "\x7b\x22instruction\x22: \x22".toList s
  let p1 ← parseStringBody s1
  let s3 ← expectLit ", \x22context\x22: \x22".toList p1.2
  let p2 ← parseStringBody s3
  let s5 ← expectLit ", \x22response\x22: \x22".toList p2.2
  let p3 ← parseStringBody s5
  let s7 ← expectLit "\x7d\n".toList p3.2
  pure (⟨p1.1, p2.1, p3.1⟩, s7)

/-- Fuel-indexed line-by-line reader of a `jsonl` file. -/
def parseJsonlAux : Nat → List Char → Option (List TrainingExample)
  | _, [] => some []
  | 0, _ :: _ => none
  | fuel + 1, c :: t =>
    match parseExampleFrom (c :: t) with
    | none => none
    | some (e, rest) =>
      match parseJsonlAux fuel rest with
      | none => none
      | some es => some (e :: es)

/-- Line-by-line reader of a `jsonl` file. -/
def parseJsonl (s : List Char) : Option (List TrainingExample) :=
  parseJsonlAux s.length s

theorem hexVal_hexDigitChar : ∀ n < 16, hexVal (hexDigitChar n) = some n := by
  decide

theorem parseStringBody_escape (s rest : List Char) :
    parseStringBody (escapeStr s ++ '\x22' :: rest) = some (s, rest) := by
  induction s with
  | nil =>
    show parseStringBody ('\x22' :: rest) = some ([], rest)
    rw [parseStringBody.eq_def]
    simp
  | cons c s' ih =>
    have hes : escapeStr (c :: s') = escapeChar c ++ escapeStr s' := by
      simp [escapeStr]
    rw [hes, List.append_assoc]
    unfold escapeChar
    split_ifs with h1 h2 h3 h4 h5 h6 h7 h8
    · subst h1
      rw [parseStringBody.eq_def]
      simp [ih]
    · subst h2
      rw [parseStringBody.eq_def]
      simp [ih]
    · subst h3
      rw [parseStringBody.eq_def]
      simp [ih]
    · subst h4
      rw [parseStringBody.eq_def]
      simp [ih]
    · subst h5
      rw [parseStringBody.eq_def]
      simp [ih]
    · subst h6
      rw [parseStringBody.eq_def]
      simp [ih]
    · subst h7
      rw [parseStringBody.eq_def]
      simp [ih]
    · have hv3 : hexVal (hexDigitChar (c.toNat / 16)) = some (c.toNat / 16) :=
        hexVal_hexDigitChar _ (by omega)
      have hv4 : hexVal (hexDigitChar (c.toNat % 16)) = some (c.toNat % 16) :=
        hexVal_hexDigitChar _ (by omega)
      have harith : ((0 * 16 + 0) * 16 + c.toNat / 16) * 16 + c.toNat % 16 = c.toNat := by
        omega
      rw [parseStringBody.eq_def]
      simp [hv3, hv4, ih]
      rw [show hexVal '0' = some 0 from by decide]
      simp only [Option.some_bind]
      rw [harith]
      simp [Char.ofNat_toNat]
    · rw [parseStringBody.eq_def]
      simp [ih, h1, h2]

theorem expectLit_append (pat s : List Char) : expectLit pat (pat ++ s) = some s := by
  unfold expectLit
  rw [if_pos (by rw [List.isPrefixOf_iff_prefix]; exact List.prefix_append _ _)]
  rw [List.drop_left]

theorem parseExampleFrom_dumps (e : TrainingExample) (rest : List Char) :
    parseExampleFrom (dumpsExample e ++ '\n' :: rest) = some (e, rest) := by
  obtain ⟨i, c, r⟩ := e
  have hshape : dumpsExample ⟨i, c, r⟩ ++ '\n' :: rest =
      "\x7b\x22instruction\x22: \x22".toList ++ (escapeStr i ++ '\x22' ::
        (", \x22context\x22: \x22".toList ++ (escapeStr c ++ '\x22' ::
          (", \x22response\x22: \x22".toList ++ (escapeStr r ++ '\x22' ::
            ("\x7d\n".toList ++ rest)))))) := by
    simp only [dumpsExample, List.append_assoc]
    rw [show ("\x22, \x22context\x22: \x22".toList : List Char) =
        '\x22' :: ", \x22context\x22: \x22".toList from rfl]
    rw [show ("\x22, \x22response\x22: \x22".toList : List Char) =
        '\x22' :: ", \x22response\x22: \x22".toList from rfl]
    rw [show ("\x22\x7d".toList : List Char) ++ '\n' :: rest =
        '\x22' :: ("\x7d\n".toList ++ rest) from rfl]
    simp [List.cons_append]
  rw [hshape]
  unfold parseExampleFrom
  simp only [Option.bind_eq_bind, Option.pure_def, expectLit_append, Option.some_bind,
    parseStringBody_escape]

theorem save_jsonl_cons (e : TrainingExample) (es : List TrainingExample) :
    save_jsonl (e :: es) = dumpsExample e ++ '\n' :: save_jsonl es := by
  simp [save_jsonl, List.flatten_cons, List.append_assoc]

theorem save_jsonl_roundtrip_aux :
    ∀ (es : List TrainingExample) (fuel : Nat),
      (save_jsonl es).length ≤ fuel → parseJsonlAux fuel (save_jsonl es) = some es := by
  intro es
  induction es with
  | nil =>
    intro fuel _
    show parseJsonlAux fuel [] = some []
    cases fuel <;> rfl
  | cons e es' ih =>
    intro fuel hf
    rw [save_jsonl_cons] at hf ⊢
    have hlen : 1 ≤ fuel := by
      have : 0 < (dumpsExample e ++ '\n' :: save_jsonl es').length := by
        simp
      omega
    obtain ⟨fuel', rfl⟩ : ∃ k, fuel = k + 1 := ⟨fuel - 1, by omega⟩
    cases hs : dumpsExample e ++ '\n' :: save_jsonl es' with
    | nil =>
      exact absurd hs (by simp)
    | cons c t =>
      show parseJsonlAux (fuel' + 1) (c :: t) = some (e :: es')
      have hp : parseExampleFrom (c :: t) = some (e, save_jsonl es') := by
        rw [← hs]
        exact parseExampleFrom_dumps e (save_jsonl es')
      simp only [parseJsonlAux, hp]
      have hrest : (save_jsonl es').length ≤ fuel' := by
        rw [hs] at hf
        have hd : (dumpsExample e ++ '\n' :: save_jsonl es').length =
            (dumpsExample e).length + 1 + (save_jsonl es').length := by
          simp [List.length_append]
          omega
        rw [← hs] at hf
        rw [hd] at hf
        omega
      rw [ih fuel' hrest]

/-- C8: serializing a list of training records to line-delimited JSON and
parsing the lines back yields the identical sequence of records. -/
theorem save_jsonl_roundtrip (es : List TrainingExample) :
    parseJsonl (save_jsonl es) = some es :=
  save_jsonl_roundtrip_aux es _ (Nat.le_refl _)

end CursorRules
